import Mathlib

/-!
# Verification of the dataset validation engine

Shallow embedding of the repository's validation script (the `check-data`
style script auditing `tools.json` and the split per-category files) and of
the `slugify` function from `scripts/add-slugs.ts`, together with theorems
settling the specification's claims about them.

Conventions of the embedding:
* JS strings are Lean `String`s; character-level operations go through
  `String.data : List Char`.
* A JS value that may be `undefined` is an `Option`.
* A JS object field holding `undefined` is modelled the same as an absent
  field (both are `none`).
* `Map` iteration order (insertion order in JS) is modelled by an
  association list to which fresh keys are appended at the end.
* `Array.prototype.sort` (stable since ES2019) with the comparator
  `(a, b) => b[1].length - a[1].length` is modelled by a stable insertion
  sort that orders by descending owner count.
-/

/-- JS `\s` character class (the whitespace set used by `trim` and by the
whitespace regexes): ASCII whitespace plus the Unicode space separators,
line/paragraph separators and the BOM. -/
def isJsWS (c : Char) : Bool :=
  c = ' ' || c = '\t' || c = '\n' || c = '\r' || c = '\x0b' || c = '\x0c' ||
  c = '\u00A0' || c = '\u1680' || ('\u2000' ≤ c && c ≤ '\u200A') ||
  c = '\u2028' || c = '\u2029' || c = '\u202F' || c = '\u205F' ||
  c = '\u3000' || c = '\uFEFF'

/-- Strip leading and trailing whitespace from a character list. -/
def trimChars (l : List Char) : List Char :=
  ((l.dropWhile isJsWS).reverse.dropWhile isJsWS).reverse

/-- JS `String.prototype.trim`: strip leading and trailing whitespace. -/
def jsTrim (s : String) : String :=
  String.mk (trimChars s.data)

/-- JS `String.prototype.startsWith`. -/
def jsStartsWith (s pre : String) : Bool :=
  pre.data.isPrefixOf s.data

/-- Does `sub` occur as a contiguous run inside `l`? -/
def containsSub (sub : List Char) : List Char → Bool
  | [] => sub.isEmpty
  | c :: cs => sub.isPrefixOf (c :: cs) || containsSub sub cs

/-- JS `String.prototype.includes`. -/
def jsIncludes (s sub : String) : Bool :=
  containsSub sub.data s.data

/-- JS `str.replace(pat, '')` with a plain-string pattern: remove the first
occurrence of `pat` (list-of-characters version). -/
def removeFirst (pat : List Char) : List Char → List Char
  | [] => []
  | c :: cs =>
    if pat.isPrefixOf (c :: cs) then (c :: cs).drop pat.length
    else c :: removeFirst pat cs

/-- `file.replace('.json', '')`: the category name a split file contributes
findings under. -/
def deriveCategory (file : String) : String :=
  String.mk (removeFirst ".json".data file.data)

/-- The required attribution marker (`REQUIRED_REF` in the script). -/
def REQUIRED_REF : String := "?ref=riseofmachine.com"

/-- One tool record as it occurs in the JSON sources. `slug` and `url` may
be absent. -/
structure Tool where
  title : String
  slug : Option String
  url : Option String
  deriving Repr, DecidableEq

/-- The `{title, category, slug}` (and optionally `url`) object the script
builds as `toolInfo` and stores in issue buckets and in the URL map.
`url = none` models a finding without a `url` field. -/
structure ToolInfo where
  title : String
  category : String
  slug : Option String
  url : Option String
  deriving Repr, DecidableEq

/-- The `content` field of a primary-dataset category: an array of tools, a
present-but-non-array value, or absent.  The script guards with
`category.content && Array.isArray(category.content)`. -/
inductive ContentField where
  | arr (tools : List Tool)
  | nonArray
  | absent
  deriving Repr, DecidableEq

/-- One entry of `data.tools` in the primary dataset. -/
structure Category where
  category : String
  content : ContentField
  deriving Repr, DecidableEq

/-- The parsed body of one split file: a bare array of tools, or some other
JSON value, tagged with its JS runtime type (`typeof`) for the report. -/
inductive SplitBody where
  | arr (tools : List Tool)
  | nonArray (tyName : String)
  deriving Repr, DecidableEq

/-- One file of the split directory (name includes the `.json` extension). -/
structure SplitFile where
  name : String
  body : SplitBody
  deriving Repr, DecidableEq

/-- Result of loading and parsing the primary dataset file. `parseError`
covers a missing/unreadable file and malformed JSON (the `readFileSync` /
`JSON.parse` throw caught by the outer `catch`); `root tools?` is a parsed
document, with `tools? = none` when the root has no `tools` array. -/
inductive PrimaryLoad where
  | parseError (msg : String)
  | root (tools? : Option (List Category))
  deriving Repr, DecidableEq

/-- The whole input of one run: the primary load result and the optional
split directory (`none` when `fs.existsSync(toolsDir)` is false). -/
structure Input where
  primary : PrimaryLoad
  splitFiles : Option (List SplitFile)
  deriving Repr, DecidableEq

/-- The URL-to-owners index (`urlMap` in the script): insertion-ordered
association list from exact trimmed URL to the tools registered under it. -/
abbrev UrlMap := List (String × List ToolInfo)

/-- `urlMap.get(url).push(info)` preceded by `urlMap.set(url, [])` when the
key is new: append to an existing entry, else append a fresh key at the
end (JS `Map` preserves insertion order). -/
def urlMapAdd (m : UrlMap) (url : String) (info : ToolInfo) : UrlMap :=
  match m with
  | [] => [(url, [info])]
  | (k, v) :: rest =>
    if k = url then (k, v ++ [info]) :: rest
    else (k, v) :: urlMapAdd rest url info

/-- The mutable aggregation state of the traversal: the four issue buckets,
the URL index and the two counters. -/
structure VState where
  urlMap : UrlMap
  missing_url : List ToolInfo
  missing_protocol : List ToolInfo
  missing_ref : List ToolInfo
  invalid_structure : List (String × String)
  totalTools : Nat
  splitToolsChecked : Nat
  deriving Repr, DecidableEq

/-- The fresh state at the start of a run. -/
def VState.initial : VState :=
  { urlMap := [], missing_url := [], missing_protocol := [], missing_ref := [],
    invalid_structure := [], totalTools := 0, splitToolsChecked := 0 }

/-- One primary-dataset tool (the body of the inner `forEach` over
`category.content`): count it, trim the url, run the three checks, and
register the record in the URL index when the trimmed url is non-empty. -/
def processPrimaryTool (cat : String) (st : VState) (tool : Tool) : VState :=
  let st := { st with totalTools := st.totalTools + 1 }
  let info : ToolInfo :=
    { title := tool.title, category := cat, slug := tool.slug, url := none }
  match tool.url with
  | none => { st with missing_url := st.missing_url ++ [info] }
  | some raw =>
    let url := jsTrim raw
    if url = "" then { st with missing_url := st.missing_url ++ [info] }
    else
      let st :=
        if !(jsStartsWith url "http://" || jsStartsWith url "https://") then
          { st with missing_protocol := st.missing_protocol ++ [{ info with url := some url }] }
        else st
      let st :=
        if !(jsIncludes url REQUIRED_REF) then
          { st with missing_ref := st.missing_ref ++ [{ info with url := some url }] }
        else st
      { st with urlMap := urlMapAdd st.urlMap url info }

/-- One primary-dataset category: iterate its tools only when `content` is
an array; otherwise the category is skipped without any effect. -/
def processCategory (st : VState) (c : Category) : VState :=
  match c.content with
  | .arr tools => tools.foldl (processPrimaryTool c.category) st
  | .nonArray => st
  | .absent => st

/-- One split-file tool (the body of `categoryData.forEach`): the checks
use the *untrimmed* url, the `toolInfo` carries the raw `url` field, and
nothing is registered in the URL index. -/
def processSplitTool (cat : String) (st : VState) (tool : Tool) : VState :=
  let st := { st with splitToolsChecked := st.splitToolsChecked + 1 }
  let info : ToolInfo :=
    { title := tool.title, category := cat, slug := tool.slug, url := tool.url }
  match tool.url with
  | none => { st with missing_url := st.missing_url ++ [info] }
  | some u =>
    if u = "" then { st with missing_url := st.missing_url ++ [info] }
    else
      let st :=
        if !(jsStartsWith u "http://" || jsStartsWith u "https://") then
          { st with missing_protocol := st.missing_protocol ++ [info] }
        else st
      if !(jsIncludes u REQUIRED_REF) then
        { st with missing_ref := st.missing_ref ++ [info] }
      else st

/-- One split file: a non-array body records a single `invalid_structure`
finding (category from the file name, payload its runtime type) and
processing moves to the next file; an array body is traversed. -/
def processSplitFile (st : VState) (f : SplitFile) : VState :=
  match f.body with
  | .nonArray ty =>
    { st with invalid_structure := st.invalid_structure ++ [(deriveCategory f.name, ty)] }
  | .arr tools => tools.foldl (processSplitTool (deriveCategory f.name)) st

/-- Stable insertion step for the duplicate sort: an entry is placed before
the first entry with a strictly smaller owner count, hence after every
earlier entry of equal count. -/
def insertByCountDesc (x : String × List ToolInfo) :
    List (String × List ToolInfo) → List (String × List ToolInfo)
  | [] => [x]
  | y :: ys =>
    if x.2.length ≥ y.2.length then x :: y :: ys
    else y :: insertByCountDesc x ys

/-- Stable sort by descending owner count, modelling the stable JS
`Array.prototype.sort` with comparator `(a, b) => b[1].length - a[1].length`. -/
def sortByCountDesc : List (String × List ToolInfo) → List (String × List ToolInfo)
  | [] => []
  | x :: xs => insertByCountDesc x (sortByCountDesc xs)

/-- `Array.from(urlMap.entries()).filter(([, t]) => t.length > 1).sort(...)`:
the duplicate groups, sorted descending by count. -/
def duplicatesOf (m : UrlMap) : List (String × List ToolInfo) :=
  sortByCountDesc (m.filter (fun e => decide (1 < e.2.length)))

/-- The data the reporting section works from. `hasIssues` and the
`Summary:` line (`summary = none` when the line is not printed) follow the
script's reporting code verbatim. -/
structure Report where
  urlMap : UrlMap
  missing_url : List ToolInfo
  missing_protocol : List ToolInfo
  missing_ref : List ToolInfo
  invalid_structure : List (String × String)
  duplicates : List (String × List ToolInfo)
  totalTools : Nat
  splitToolsChecked : Nat
  hasIssues : Bool
  summary : Option Nat
  exitCode : Nat
  deriving Repr, DecidableEq

/-- Assemble the report from the final state: `hasIssues` is set by the
five non-empty sections; on a clean pass the script prints the success
line and exits 0 without printing a numeric summary; otherwise it prints
`Summary: issueCount issue(s) found` and exits 1. -/
def mkReport (st : VState) (dups : List (String × List ToolInfo)) : Report :=
  let hasIssues :=
    !st.missing_url.isEmpty || !st.missing_protocol.isEmpty ||
    !st.missing_ref.isEmpty || !dups.isEmpty || !st.invalid_structure.isEmpty
  { urlMap := st.urlMap
    missing_url := st.missing_url
    missing_protocol := st.missing_protocol
    missing_ref := st.missing_ref
    invalid_structure := st.invalid_structure
    duplicates := dups
    totalTools := st.totalTools
    splitToolsChecked := st.splitToolsChecked
    hasIssues := hasIssues
    summary :=
      if hasIssues then
        some (st.missing_url.length + st.missing_protocol.length +
              st.missing_ref.length + st.invalid_structure.length + dups.length)
      else none
    exitCode := if hasIssues then 1 else 0 }

/-- The whole run.  A parse failure of the primary file or a root without
a `tools` array aborts with only a diagnostic (no report, no findings);
otherwise the primary categories are traversed, the duplicate groups are
derived, the split files (if the directory exists) are traversed, and the
report is assembled. -/
def runValidation (inp : Input) : Except String Report :=
  match inp.primary with
  | .parseError msg => .error ("Error reading tools.json: " ++ msg)
  | .root none => .error "Invalid tools.json structure"
  | .root (some cats) =>
    let st := cats.foldl processCategory VState.initial
    let dups := duplicatesOf st.urlMap
    let st :=
      match inp.splitFiles with
      | none => st
      | some fs => fs.foldl processSplitFile st
    .ok (mkReport st dups)

/-- The process exit signal of a run: 1 on the fatal path, otherwise the
report's verdict. -/
def exitCodeOf (r : Except String Report) : Nat :=
  match r with
  | .error _ => 1
  | .ok rep => rep.exitCode

/-! ## The `slugify` function of `scripts/add-slugs.ts` -/

/-- JS `\w` character class: `[A-Za-z0-9_]`. -/
def isWordChar (c : Char) : Bool :=
  ('a' ≤ c && c ≤ 'z') || ('A' ≤ c && c ≤ 'Z') || ('0' ≤ c && c ≤ '9') || c = '_'

/-- A `\w` character that is not an (ASCII) uppercase letter. -/
def isLowerWordChar (c : Char) : Bool :=
  ('a' ≤ c && c ≤ 'z') || ('0' ≤ c && c ≤ '9') || c = '_'

/-- Replace every maximal non-empty run of characters satisfying `p` by the
single character `r`.  With `p` the whitespace class this is the global
whitespace-run-to-hyphen replacement; with `p` the hyphen test it coincides
with the global replacement of hyphen runs of length at least two by one
hyphen, since a length-one run is rewritten to itself. -/
def collapseRuns (p : Char → Bool) (r : Char) : List Char → List Char
  | [] => []
  | c :: cs =>
    if p c then r :: collapseRuns p r (cs.dropWhile p)
    else c :: collapseRuns p r cs
termination_by l => l.length
decreasing_by
  · simp only [List.length_cons]
    exact Nat.lt_succ_of_le (List.dropWhile_sublist p).length_le
  · simp [Nat.lt_succ_self]

/-- `slugify` from `scripts/add-slugs.ts`: lowercase, trim, turn whitespace
runs into hyphens, drop characters outside `[\w-]`, collapse hyphen runs,
and strip hyphens from both ends.  `Char.toLower` models the ASCII part of
JS `toLowerCase`, which is the part that can produce `\w` characters. -/
def slugify (s : String) : String :=
  let l0 := s.data.map Char.toLower
  let l1 := trimChars l0
  let l2 := collapseRuns isJsWS '-' l1
  let l3 := l2.filter (fun c => isWordChar c || c = '-')
  let l4 := collapseRuns (fun c => c = '-') '-' l3
  let l5 := l4.dropWhile (fun c => c = '-')
  let l6 := (l5.reverse.dropWhile (fun c => c = '-')).reverse
  String.mk l6

/-- No two adjacent hyphens occur in the list. -/
def noDoubleHyphen : List Char → Bool
  | [] => true
  | [_] => true
  | a :: b :: rest => !(a = '-' && b = '-') && noDoubleHyphen (b :: rest)

/-! ## Concrete example inputs used by witnesses and counterexamples -/

/-- A primary-dataset record with a slug equal to its title. -/
def mkExTool (t u : String) : Tool := { title := t, slug := some t, url := some u }

/-- Three primary records sharing one URL and two sharing another, the
duplicate-ordering example of the specification. -/
def exInputDup : Input :=
  { primary := .root (some [
      { category := "c1", content := .arr [
          mkExTool "t1" "https://a.com/?ref=riseofmachine.com",
          mkExTool "t2" "https://a.com/?ref=riseofmachine.com",
          mkExTool "t3" "https://b.com/?ref=riseofmachine.com",
          mkExTool "t4" "https://a.com/?ref=riseofmachine.com",
          mkExTool "t5" "https://b.com/?ref=riseofmachine.com"] }]),
    splitFiles := none }

/-- A split directory with a single file whose only record carries a
whitespace-only url. -/
def exInputSplitWS : Input :=
  { primary := .root (some []),
    splitFiles := some [
      { name := "cat.json", body := .arr [{ title := "w", slug := none, url := some "   " }] }] }

/-- An empty primary dataset and no split directory: a clean pass. -/
def exInputClean : Input :=
  { primary := .root (some []), splitFiles := none }

/-- A primary dataset with a single record missing its url. -/
def exInputMissing : Input :=
  { primary := .root (some [
      { category := "c", content := .arr [{ title := "t", slug := none, url := none }] }]),
    splitFiles := none }

/-- The report of a run, with a dummy report on the fatal path (used to
state closed instances of theorems about successful runs). -/
def reportOf (inp : Input) : Report :=
  match runValidation inp with
  | .ok r => r
  | .error _ => mkReport VState.initial []

/-- The state after traversing the primary dataset. -/
def primaryState (cats : List Category) : VState :=
  cats.foldl processCategory VState.initial

/-- The state after traversing the primary dataset and then the split
directory (when it exists). -/
def finalState (cats : List Category) (fs? : Option (List SplitFile)) : VState :=
  match fs? with
  | none => primaryState cats
  | some fs => fs.foldl processSplitFile (primaryState cats)

/-! ## Helper lemmas -/

theorem foldl_preserve {α β : Type} (P : VState → β) (f : VState → α → VState)
    (h : ∀ st a, P (f st a) = P st) :
    ∀ (l : List α) (st : VState), P (l.foldl f st) = P st := by
  intro l
  induction l with
  | nil => intro st; rfl
  | cons a as ih => intro st; rw [List.foldl_cons, ih, h]

theorem processSplitTool_urlMap (cat : String) (st : VState) (tool : Tool) :
    (processSplitTool cat st tool).urlMap = st.urlMap := by
  rcases tool with ⟨t, sl, u⟩
  rcases u with _ | u <;> simp only [processSplitTool] <;> split <;> try rfl
  split <;> split <;> rfl

theorem processSplitFile_urlMap (st : VState) (f : SplitFile) :
    (processSplitFile st f).urlMap = st.urlMap := by
  rcases f with ⟨nm, body⟩
  rcases body with tools | ty
  · exact foldl_preserve VState.urlMap _ (processSplitTool_urlMap _) tools st
  · rfl

theorem splitFold_urlMap (fs : List SplitFile) (st : VState) :
    (fs.foldl processSplitFile st).urlMap = st.urlMap :=
  foldl_preserve VState.urlMap _ processSplitFile_urlMap fs st

theorem runValidation_root (cats : List Category) (fs? : Option (List SplitFile)) :
    runValidation { primary := .root (some cats), splitFiles := fs? } =
      .ok (mkReport (finalState cats fs?) (duplicatesOf (primaryState cats).urlMap)) := by
  cases fs? <;> rfl

theorem mkReport_exitCode_zero_iff (st : VState) (dups : List (String × List ToolInfo)) :
    (mkReport st dups).exitCode = 0 ↔
      (st.missing_url = [] ∧ st.missing_protocol = [] ∧ st.missing_ref = [] ∧
       st.invalid_structure = [] ∧ dups = []) := by
  simp only [mkReport]
  split
  · rename_i h
    simp only [Bool.or_eq_true, Bool.not_eq_true', List.isEmpty_eq_false] at h
    constructor
    · intro h0; exact absurd h0 (by decide)
    · rintro ⟨h1, h2, h3, h4, h5⟩
      rcases h with ((((h | h) | h) | h) | h) <;> simp_all
  · rename_i h
    simp only [Bool.or_eq_true, not_or, Bool.not_eq_true', Bool.not_eq_false,
      List.isEmpty_eq_true] at h
    simp [h.1.1.1.1, h.1.1.1.2, h.1.1.2, h.1.2, h.2]

theorem mkReport_exitCode_cases (st : VState) (dups : List (String × List ToolInfo)) :
    (mkReport st dups).exitCode = 0 ∨ (mkReport st dups).exitCode = 1 := by
  simp only [mkReport]
  split <;> simp

theorem runValidation_ok_inv (inp : Input) (rep : Report)
    (h : runValidation inp = .ok rep) :
    ∃ cats, inp.primary = .root (some cats) ∧
      rep = mkReport (finalState cats inp.splitFiles)
        (duplicatesOf (primaryState cats).urlMap) := by
  rcases inp with ⟨p, fs?⟩
  rcases p with msg | tools?
  · exact absurd h (by simp [runValidation])
  · rcases tools? with _ | cats
    · exact absurd h (by simp [runValidation])
    · refine ⟨cats, rfl, ?_⟩
      have h2 := runValidation_root cats fs?
      rw [h] at h2
      injection h2 with h3

/-- C1: a completed run exits 0 iff every issue bucket and the duplicate
set are empty; any finding makes the exit code 1, and the fatal path also
exits 1. -/
theorem verdict_pass_iff_no_findings (inp : Input) (rep : Report)
    (h : runValidation inp = .ok rep) :
    (rep.exitCode = 0 ↔
      (rep.missing_url = [] ∧ rep.missing_protocol = [] ∧ rep.missing_ref = [] ∧
       rep.invalid_structure = [] ∧ rep.duplicates = [])) ∧
    (rep.exitCode = 0 ∨ rep.exitCode = 1) ∧
    exitCodeOf (runValidation inp) = rep.exitCode := by
  obtain ⟨cats, -, hrep⟩ := runValidation_ok_inv inp rep h
  subst hrep
  refine ⟨?_, mkReport_exitCode_cases _ _, by rw [h]; rfl⟩
  have := mkReport_exitCode_zero_iff (finalState cats inp.splitFiles)
    (duplicatesOf (primaryState cats).urlMap)
  simpa [mkReport] using this

/-- C1 witness: the clean example run exits 0 with all buckets empty, and
the missing-url example run exits 1. -/
theorem verdict_pass_iff_no_findings_witness :
    ((reportOf exInputClean).exitCode = 0 ↔
      ((reportOf exInputClean).missing_url = [] ∧
       (reportOf exInputClean).missing_protocol = [] ∧
       (reportOf exInputClean).missing_ref = [] ∧
       (reportOf exInputClean).invalid_structure = [] ∧
       (reportOf exInputClean).duplicates = [])) ∧
    ((reportOf exInputClean).exitCode = 0 ∨ (reportOf exInputClean).exitCode = 1) ∧
    exitCodeOf (runValidation exInputClean) = (reportOf exInputClean).exitCode :=
  verdict_pass_iff_no_findings exInputClean (reportOf exInputClean) rfl

/-- C2: a split file whose parsed body is not an array contributes exactly
one `invalid_structure` finding (category derived from the file name,
payload the runtime type) and the traversal continues with the remaining
files; moreover a run whose primary dataset loaded never aborts on split
files. -/
theorem split_nonarray_nonfatal :
    (∀ (pre post : List SplitFile) (nm ty : String) (st : VState),
      (pre ++ { name := nm, body := .nonArray ty } :: post).foldl processSplitFile st =
        post.foldl processSplitFile
          { pre.foldl processSplitFile st with
            invalid_structure :=
              (pre.foldl processSplitFile st).invalid_structure ++ [(deriveCategory nm, ty)] }) ∧
    (∀ (cats : List Category) (fs : List SplitFile),
      ∃ rep, runValidation { primary := .root (some cats), splitFiles := some fs } = .ok rep) :=
  ⟨fun pre post nm ty st => by
    rw [List.foldl_append, List.foldl_cons]
    rfl,
   fun cats fs => ⟨_, runValidation_root cats (some fs)⟩⟩

/-- C8: a fatal load of the primary dataset (parse failure, or a root
without a `tools` array) aborts the run with exit signal 1 and produces no
report — hence no sections and no findings of any kind. -/
theorem fatal_primary_aborts :
    (∀ (msg : String) (fs? : Option (List SplitFile)),
      runValidation { primary := .parseError msg, splitFiles := fs? } =
        .error ("Error reading tools.json: " ++ msg) ∧
      exitCodeOf (runValidation { primary := .parseError msg, splitFiles := fs? }) = 1) ∧
    (∀ fs? : Option (List SplitFile),
      runValidation { primary := .root none, splitFiles := fs? } =
        .error "Invalid tools.json structure" ∧
      exitCodeOf (runValidation { primary := .root none, splitFiles := fs? }) = 1) :=
  ⟨fun msg fs? => ⟨rfl, rfl⟩, fun fs? => ⟨rfl, rfl⟩⟩

/-- C10: a primary category whose `content` is absent or not an array is
skipped without any effect on the state — no count, no finding of any
kind — while a split file with a non-array body does record an
`invalid_structure` finding. -/
theorem primary_nonarray_category_skipped (st : VState) (nm ty : String) :
    processCategory st { category := nm, content := .absent } = st ∧
    processCategory st { category := nm, content := .nonArray } = st ∧
    (processSplitFile st { name := nm, body := .nonArray ty }).invalid_structure =
      st.invalid_structure ++ [(deriveCategory nm, ty)] :=
  ⟨rfl, rfl, rfl⟩

theorem mkReport_hasIssues_false_iff (st : VState) (dups : List (String × List ToolInfo)) :
    (mkReport st dups).hasIssues = false ↔
      (st.missing_url = [] ∧ st.missing_protocol = [] ∧ st.missing_ref = [] ∧
       st.invalid_structure = [] ∧ dups = []) := by
  simp only [mkReport]
  simp [List.isEmpty_eq_true, and_comm, and_assoc, and_left_comm]

/-- C3 counterexample: a split record whose url is whitespace-only has an
empty trimmed url, yet the run produces no `missing_url` finding for it —
the protocol and ref rules fire instead. -/
theorem missing_url_rule_counterexample :
    jsTrim "   " = "" ∧
    (runValidation exInputSplitWS).toOption.map
      (fun r => (r.missing_url.length, r.missing_protocol.length, r.missing_ref.length)) =
      some (0, 1, 1) :=
  ⟨rfl, rfl⟩

/-- C3 (amended): for primary records the trimmed url decides the
missing-url rule, and an absent/trim-empty url yields exactly one
`missing_url` finding `{title, category, slug}` with no other rule firing;
for split records the *untrimmed* url is tested, an absent or empty-string
url yields exactly one `missing_url` finding that also carries the raw
`url` field, and a whitespace-only split url is instead handled by the
protocol and ref rules. -/
theorem missing_url_rule_amended :
    (∀ (cat : String) (st : VState) (tool : Tool),
      (tool.url = none ∨ ∃ raw, tool.url = some raw ∧ jsTrim raw = "") →
      processPrimaryTool cat st tool =
        { st with totalTools := st.totalTools + 1,
                  missing_url := st.missing_url ++
                    [{ title := tool.title, category := cat, slug := tool.slug, url := none }] }) ∧
    (∀ (cat : String) (st : VState) (tool : Tool),
      (tool.url = none ∨ tool.url = some "") →
      processSplitTool cat st tool =
        { st with splitToolsChecked := st.splitToolsChecked + 1,
                  missing_url := st.missing_url ++
                    [{ title := tool.title, category := cat, slug := tool.slug, url := tool.url }] }) := by
  constructor
  · rintro cat st tool (h | ⟨raw, h, htrim⟩)
    · simp [processPrimaryTool, h]
    · simp [processPrimaryTool, h, htrim]
  · rintro cat st tool (h | h)
    · simp [processSplitTool, h]
    · simp [processSplitTool, h]

/-- C3 witness: concrete instances of the amended rule — a primary record
with url `" "` gets one url-less `missing_url` finding, a split record
with url `""` gets one `missing_url` finding carrying the url field. -/
theorem missing_url_rule_amended_witness :
    processPrimaryTool "c" VState.initial { title := "t", slug := none, url := some " " } =
      { VState.initial with
        totalTools := VState.initial.totalTools + 1,
        missing_url := VState.initial.missing_url ++
          [{ title := "t", category := "c", slug := none, url := none }] } ∧
    processSplitTool "c" VState.initial { title := "t", slug := none, url := some "" } =
      { VState.initial with
        splitToolsChecked := VState.initial.splitToolsChecked + 1,
        missing_url := VState.initial.missing_url ++
          [{ title := "t", category := "c", slug := none, url := some "" }] } :=
  ⟨missing_url_rule_amended.1 "c" VState.initial _ (Or.inr ⟨" ", rfl, rfl⟩),
   missing_url_rule_amended.2 "c" VState.initial _ (Or.inr rfl)⟩

/-- C4 counterexample: on a clean pass the run completes but renders no
numeric summary line (only the success line), refuting "this summary is
always rendered, including on a clean pass". -/
theorem final_summary_counterexample :
    (runValidation exInputClean).toOption.map Report.summary = some none ∧
    exitCodeOf (runValidation exInputClean) = 0 :=
  ⟨rfl, rfl⟩

/-- C4 (amended): when a completed run has at least one finding, its
report ends with the numeric summary equal to the sum of the bucket sizes
plus the number of duplicate URL groups (not duplicate records); on a
clean pass no numeric summary is rendered. -/
theorem final_summary_amended (inp : Input) (rep : Report)
    (h : runValidation inp = .ok rep) :
    rep.summary =
      (if rep.hasIssues then
        some (rep.missing_url.length + rep.missing_protocol.length +
              rep.missing_ref.length + rep.invalid_structure.length + rep.duplicates.length)
      else none) ∧
    (rep.hasIssues = false ↔
      (rep.missing_url = [] ∧ rep.missing_protocol = [] ∧ rep.missing_ref = [] ∧
       rep.invalid_structure = [] ∧ rep.duplicates = [])) := by
  obtain ⟨cats, -, hrep⟩ := runValidation_ok_inv inp rep h
  subst hrep
  refine ⟨rfl, ?_⟩
  have := mkReport_hasIssues_false_iff (finalState cats inp.splitFiles)
    (duplicatesOf (primaryState cats).urlMap)
  simpa [mkReport] using this

/-- C4 witness: the single-missing-url example run has one finding, and
its summary line shows 1. -/
theorem final_summary_amended_witness :
    (reportOf exInputMissing).summary =
      (if (reportOf exInputMissing).hasIssues then
        some ((reportOf exInputMissing).missing_url.length +
              (reportOf exInputMissing).missing_protocol.length +
              (reportOf exInputMissing).missing_ref.length +
              (reportOf exInputMissing).invalid_structure.length +
              (reportOf exInputMissing).duplicates.length)
      else none) ∧
    ((reportOf exInputMissing).hasIssues = false ↔
      ((reportOf exInputMissing).missing_url = [] ∧
       (reportOf exInputMissing).missing_protocol = [] ∧
       (reportOf exInputMissing).missing_ref = [] ∧
       (reportOf exInputMissing).invalid_structure = [] ∧
       (reportOf exInputMissing).duplicates = [])) :=
  final_summary_amended exInputMissing (reportOf exInputMissing) rfl

/-- C6: the URL index is built from primary records only — a primary
record with a non-empty trimmed url is registered as `{title, category,
slug}` under its exact trimmed url key regardless of protocol/ref
findings, split processing never touches the index, and the duplicate
findings of a completed run are derived from the primary-phase index
alone. -/
theorem urlindex_primary_only :
    (∀ (cat : String) (st : VState) (tool : Tool) (raw : String),
      tool.url = some raw → jsTrim raw ≠ "" →
      (processPrimaryTool cat st tool).urlMap =
        urlMapAdd st.urlMap (jsTrim raw)
          { title := tool.title, category := cat, slug := tool.slug, url := none }) ∧
    (∀ (st : VState) (fs : List SplitFile),
      (fs.foldl processSplitFile st).urlMap = st.urlMap) ∧
    (∀ (cats : List Category) (fs? : Option (List SplitFile)) (rep : Report),
      runValidation { primary := .root (some cats), splitFiles := fs? } = .ok rep →
      rep.duplicates = duplicatesOf (primaryState cats).urlMap ∧
      rep.urlMap = (primaryState cats).urlMap) := by
  refine ⟨?_, fun st fs => splitFold_urlMap fs st, ?_⟩
  · rintro cat st ⟨t, sl, u⟩ raw h htrim
    obtain rfl : u = some raw := h
    simp [processPrimaryTool, if_neg htrim, apply_ite VState.urlMap]
  · intro cats fs? rep h
    have h2 := runValidation_root cats fs?
    rw [h] at h2
    injection h2 with h3
    subst h3
    refine ⟨rfl, ?_⟩
    cases fs? with
    | none => rfl
    | some fs => exact splitFold_urlMap fs (primaryState cats)

/-- C6 witness: a primary record with a flagged url (bad protocol, no ref
marker) is still registered under its trimmed url, and the example split
run leaves the index and duplicates exactly as the primary phase left
them. -/
theorem urlindex_primary_only_witness :
    (processPrimaryTool "c" VState.initial
        { title := "t", slug := none, url := some " ftp://a " }).urlMap =
      urlMapAdd VState.initial.urlMap (jsTrim " ftp://a ")
        { title := "t", category := "c", slug := none, url := none } ∧
    ((reportOf exInputSplitWS).duplicates = duplicatesOf (primaryState []).urlMap ∧
     (reportOf exInputSplitWS).urlMap = (primaryState []).urlMap) :=
  ⟨urlindex_primary_only.1 "c" VState.initial _ " ftp://a " rfl (by decide),
   urlindex_primary_only.2.2 [] exInputSplitWS.splitFiles (reportOf exInputSplitWS) rfl⟩

/-- C7: for a record with a present non-empty url (trimmed url for the
primary stream, raw url for the split stream), the protocol check fires
iff the url does not begin with `http://` or `https://` and the ref check
fires iff the url does not contain the attribution marker; the two checks
are independent, so a record can trigger both, one, or neither. -/
theorem protocol_ref_checks_independent :
    (∀ (cat : String) (st : VState) (tool : Tool) (raw : String),
      tool.url = some raw → jsTrim raw ≠ "" →
      (processPrimaryTool cat st tool).missing_protocol =
        st.missing_protocol ++
          (if jsStartsWith (jsTrim raw) "http://" || jsStartsWith (jsTrim raw) "https://" then []
           else [{ title := tool.title, category := cat, slug := tool.slug,
                   url := some (jsTrim raw) }]) ∧
      (processPrimaryTool cat st tool).missing_ref =
        st.missing_ref ++
          (if jsIncludes (jsTrim raw) REQUIRED_REF then []
           else [{ title := tool.title, category := cat, slug := tool.slug,
                   url := some (jsTrim raw) }])) ∧
    (∀ (cat : String) (st : VState) (tool : Tool) (u : String),
      tool.url = some u → u ≠ "" →
      (processSplitTool cat st tool).missing_protocol =
        st.missing_protocol ++
          (if jsStartsWith u "http://" || jsStartsWith u "https://" then []
           else [{ title := tool.title, category := cat, slug := tool.slug, url := some u }]) ∧
      (processSplitTool cat st tool).missing_ref =
        st.missing_ref ++
          (if jsIncludes u REQUIRED_REF then []
           else [{ title := tool.title, category := cat, slug := tool.slug, url := some u }])) := by
  constructor
  · rintro cat st ⟨t, sl, u⟩ raw h htrim
    obtain rfl : u = some raw := h
    constructor
    · by_cases hp : jsStartsWith (jsTrim raw) "http://" || jsStartsWith (jsTrim raw) "https://" <;>
        by_cases hr : jsIncludes (jsTrim raw) REQUIRED_REF <;>
        simp [processPrimaryTool, if_neg htrim, hp, hr]
    · by_cases hp : jsStartsWith (jsTrim raw) "http://" || jsStartsWith (jsTrim raw) "https://" <;>
        by_cases hr : jsIncludes (jsTrim raw) REQUIRED_REF <;>
        simp [processPrimaryTool, if_neg htrim, hp, hr]
  · rintro cat st ⟨t, sl, u'⟩ u h hne
    obtain rfl : u' = some u := h
    constructor
    · by_cases hp : jsStartsWith u "http://" || jsStartsWith u "https://" <;>
        by_cases hr : jsIncludes u REQUIRED_REF <;>
        simp [processSplitTool, if_neg hne, hp, hr]
    · by_cases hp : jsStartsWith u "http://" || jsStartsWith u "https://" <;>
        by_cases hr : jsIncludes u REQUIRED_REF <;>
        simp [processSplitTool, if_neg hne, hp, hr]

/-- C7 witness: a split record with url `ftp://x.com` (no marker) triggers
both the protocol finding and the ref finding. -/
theorem protocol_ref_checks_independent_witness :
    (processSplitTool "c" VState.initial
        { title := "t", slug := none, url := some "ftp://x.com" }).missing_protocol =
      VState.initial.missing_protocol ++
        [{ title := "t", category := "c", slug := none, url := some "ftp://x.com" }] ∧
    (processSplitTool "c" VState.initial
        { title := "t", slug := none, url := some "ftp://x.com" }).missing_ref =
      VState.initial.missing_ref ++
        [{ title := "t", category := "c", slug := none, url := some "ftp://x.com" }] :=
  protocol_ref_checks_independent.2 "c" VState.initial _ "ftp://x.com" rfl (by decide)

theorem insertByCountDesc_perm (x : String × List ToolInfo)
    (l : List (String × List ToolInfo)) :
    (insertByCountDesc x l).Perm (x :: l) := by
  induction l with
  | nil => exact List.Perm.refl _
  | cons y ys ih =>
    simp only [insertByCountDesc]
    split
    · exact List.Perm.refl _
    · exact (List.Perm.cons y ih).trans (List.Perm.swap x y ys)

theorem sortByCountDesc_perm (l : List (String × List ToolInfo)) :
    (sortByCountDesc l).Perm l := by
  induction l with
  | nil => exact List.Perm.nil
  | cons x xs ih =>
    exact (insertByCountDesc_perm x (sortByCountDesc xs)).trans (List.Perm.cons x ih)

theorem insertByCountDesc_pairwise (x : String × List ToolInfo)
    (l : List (String × List ToolInfo))
    (h : l.Pairwise (fun a b => b.2.length ≤ a.2.length)) :
    (insertByCountDesc x l).Pairwise (fun a b => b.2.length ≤ a.2.length) := by
  induction l with
  | nil => simp [insertByCountDesc]
  | cons y ys ih =>
    rw [List.pairwise_cons] at h
    simp only [insertByCountDesc]
    split
    · rename_i hxy
      refine List.pairwise_cons.mpr ⟨?_, List.pairwise_cons.mpr ⟨h.1, h.2⟩⟩
      intro z hz
      rcases List.mem_cons.mp hz with rfl | hz'
      · exact hxy
      · exact le_trans (h.1 z hz') hxy
    · rename_i hxy
      refine List.pairwise_cons.mpr ⟨?_, ih h.2⟩
      intro z hz
      rcases List.mem_cons.mp ((insertByCountDesc_perm x ys).mem_iff.mp hz) with rfl | hz'
      · exact le_of_lt (lt_of_not_ge hxy)
      · exact h.1 z hz'

theorem sortByCountDesc_pairwise (l : List (String × List ToolInfo)) :
    (sortByCountDesc l).Pairwise (fun a b => b.2.length ≤ a.2.length) := by
  induction l with
  | nil => exact List.Pairwise.nil
  | cons x xs ih => exact insertByCountDesc_pairwise x _ ih

theorem filter_insertByCountDesc (x : String × List ToolInfo)
    (l : List (String × List ToolInfo)) (n : Nat) :
    (insertByCountDesc x l).filter (fun e => decide (e.2.length = n)) =
      (if x.2.length = n then [x] else []) ++
        l.filter (fun e => decide (e.2.length = n)) := by
  induction l with
  | nil => by_cases h : x.2.length = n <;> simp [insertByCountDesc, h]
  | cons y ys ih =>
    simp only [insertByCountDesc]
    split
    · rename_i hxy
      by_cases h : x.2.length = n <;> simp [List.filter_cons, h]
    · rename_i hxy
      by_cases hy : y.2.length = n
      · have hx : ¬ x.2.length = n := by
          intro hx
          exact hxy (by omega)
        simp [List.filter_cons, hy, hx, ih]
      · simp [List.filter_cons, hy, ih]

theorem filter_sortByCountDesc (l : List (String × List ToolInfo)) (n : Nat) :
    (sortByCountDesc l).filter (fun e => decide (e.2.length = n)) =
      l.filter (fun e => decide (e.2.length = n)) := by
  induction l with
  | nil => rfl
  | cons x xs ih =>
    simp only [sortByCountDesc]
    rw [filter_insertByCountDesc, ih, List.filter_cons]
    by_cases h : x.2.length = n <;> simp [h]

theorem finalState_urlMap (cats : List Category) (fs? : Option (List SplitFile)) :
    (finalState cats fs?).urlMap = (primaryState cats).urlMap := by
  cases fs? with
  | none => rfl
  | some fs => exact splitFold_urlMap fs (primaryState cats)

theorem mkReport_duplicates (st : VState) (d : List (String × List ToolInfo)) :
    (mkReport st d).duplicates = d := rfl

theorem mkReport_urlMap (st : VState) (d : List (String × List ToolInfo)) :
    (mkReport st d).urlMap = st.urlMap := rfl

/-- C5: after the traversal the duplicate findings are exactly the UrlIndex
entries with more than one owner (a permutation of that filtered index),
ordered by descending owner count, with ties kept in original key
insertion order (the count-`n` entries of the result are the count-`n`
entries of the index in their original order). -/
theorem duplicates_sorted_desc_stable (inp : Input) (cats : List Category) (rep : Report)
    (h1 : inp.primary = .root (some cats)) (h2 : runValidation inp = .ok rep) :
    rep.duplicates.Perm (rep.urlMap.filter (fun e => decide (1 < e.2.length))) ∧
    rep.duplicates.Pairwise (fun a b => b.2.length ≤ a.2.length) ∧
    (∀ n : Nat, rep.duplicates.filter (fun e => decide (e.2.length = n)) =
      rep.urlMap.filter (fun e => decide (1 < e.2.length) && decide (e.2.length = n))) := by
  obtain ⟨cats', hc, hrep⟩ := runValidation_ok_inv inp rep h2
  rw [h1] at hc
  injection hc with hc'
  injection hc' with hc''
  subst hc''
  subst hrep
  rw [mkReport_duplicates, mkReport_urlMap, finalState_urlMap]
  refine ⟨?_, sortByCountDesc_pairwise _, ?_⟩
  · exact sortByCountDesc_perm _
  · intro n
    rw [duplicatesOf, filter_sortByCountDesc, List.filter_filter]
    exact List.filter_congr (fun a _ => by rw [Bool.and_comm])

/-- C5 witness: in the three-and-two duplicates example the derived
duplicates are the multi-owner index entries sorted descending, stably,
and the count-3 group (`a.com`) is listed before the count-2 group
(`b.com`). -/
theorem duplicates_sorted_desc_stable_witness :
    (reportOf exInputDup).duplicates.Perm
      ((reportOf exInputDup).urlMap.filter (fun e => decide (1 < e.2.length))) ∧
    (reportOf exInputDup).duplicates.Pairwise (fun a b => b.2.length ≤ a.2.length) ∧
    (reportOf exInputDup).duplicates.filter (fun e => decide (e.2.length = 3)) =
      (reportOf exInputDup).urlMap.filter
        (fun e => decide (1 < e.2.length) && decide (e.2.length = 3)) ∧
    (reportOf exInputDup).duplicates.map (fun e => (e.1, e.2.length)) =
      [("https://a.com/?ref=riseofmachine.com", 3),
       ("https://b.com/?ref=riseofmachine.com", 2)] :=
  ⟨(duplicates_sorted_desc_stable exInputDup _ (reportOf exInputDup) rfl rfl).1,
   (duplicates_sorted_desc_stable exInputDup _ (reportOf exInputDup) rfl rfl).2.1,
   (duplicates_sorted_desc_stable exInputDup _ (reportOf exInputDup) rfl rfl).2.2 3,
   by decide⟩

theorem slugify_data (s : String) :
    (slugify s).data =
      (((collapseRuns (fun c => c = '-') '-'
          ((collapseRuns isJsWS '-' (trimChars (s.data.map Char.toLower))).filter
            (fun c => isWordChar c || c = '-'))).dropWhile
              (fun c => c = '-')).reverse.dropWhile (fun c => c = '-')).reverse := rfl

theorem dropWhile_head_not (p : Char → Bool) (l : List Char) (c : Char)
    (h : (l.dropWhile p).head? = some c) : p c = false := by
  induction l with
  | nil => simp at h
  | cons a as ih =>
    rw [List.dropWhile_cons] at h
    split at h
    · exact ih h
    · rename_i hpa
      injection h with h'
      subst h'
      exact Bool.eq_false_iff.mpr hpa

theorem mem_collapseRuns (p : Char → Bool) (r : Char) (l : List Char) (c : Char)
    (h : c ∈ collapseRuns p r l) : c = r ∨ c ∈ l := by
  induction l using collapseRuns.induct p r with
  | case1 => simp [collapseRuns] at h
  | case2 a as hpa ih =>
    rw [collapseRuns, if_pos hpa] at h
    rcases List.mem_cons.mp h with rfl | h2
    · exact Or.inl rfl
    · rcases ih h2 with h3 | h3
      · exact Or.inl h3
      · exact Or.inr (List.mem_cons_of_mem _ ((List.dropWhile_sublist p).mem h3))
  | case3 a as hpa ih =>
    rw [collapseRuns, if_neg hpa] at h
    rcases List.mem_cons.mp h with rfl | h2
    · exact Or.inr (List.mem_cons_self _ _)
    · rcases ih h2 with h3 | h3
      · exact Or.inl h3
      · exact Or.inr (List.mem_cons_of_mem _ h3)

theorem collapseRuns_head_cases (p : Char → Bool) (r : Char) (l : List Char) (d : Char)
    (h : (collapseRuns p r l).head? = some d) :
    (∃ a as, l = a :: as ∧ p a = true ∧ d = r) ∨
    (∃ a as, l = a :: as ∧ p a = false ∧ d = a) := by
  cases l with
  | nil => simp [collapseRuns] at h
  | cons a as =>
    rw [collapseRuns] at h
    by_cases hp : p a
    · rw [if_pos hp] at h
      injection h with h'
      exact Or.inl ⟨a, as, rfl, hp, h'.symm⟩
    · rw [if_neg hp] at h
      injection h with h'
      exact Or.inr ⟨a, as, rfl, Bool.eq_false_iff.mpr hp, h'.symm⟩

theorem ndh_cons (a : Char) (l : List Char)
    (h : noDoubleHyphen (a :: l) = true) : noDoubleHyphen l = true := by
  cases l with
  | nil => rfl
  | cons b t => exact Bool.and_elim_right h

theorem ndh_append_left (l t : List Char)
    (h : noDoubleHyphen (l ++ t) = true) : noDoubleHyphen l = true := by
  induction l with
  | nil => rfl
  | cons a as ih =>
    cases as with
    | nil => rfl
    | cons b bs =>
      have h' : noDoubleHyphen (a :: b :: (bs ++ t)) = true := h
      have h1 : (!(a = '-' && b = '-') && noDoubleHyphen (b :: (bs ++ t))) = true := h'
      rw [Bool.and_eq_true] at h1
      show (!(a = '-' && b = '-') && noDoubleHyphen (b :: bs)) = true
      rw [Bool.and_eq_true]
      exact ⟨h1.1, ih h1.2⟩

theorem ndh_suffix (l t : List Char)
    (h : noDoubleHyphen (l ++ t) = true) : noDoubleHyphen t = true := by
  induction l with
  | nil => exact h
  | cons a as ih => exact ih (ndh_cons a (as ++ t) h)

theorem noDoubleHyphen_collapse (l : List Char) :
    noDoubleHyphen (collapseRuns (fun c => c = '-') '-' l) = true := by
  induction l using collapseRuns.induct (fun c => c = '-') '-' with
  | case1 => rw [collapseRuns]; rfl
  | case2 a as hpa ih =>
    rw [collapseRuns, if_pos hpa]
    cases hout : collapseRuns (fun c => c = '-') '-'
        (as.dropWhile (fun c => c = '-')) with
    | nil => rfl
    | cons d t =>
      rw [hout] at ih
      have hd : ¬ d = '-' := by
        have h1 : (collapseRuns (fun c => c = '-') '-'
            (as.dropWhile (fun c => c = '-'))).head? = some d := by
          rw [hout]; rfl
        rcases collapseRuns_head_cases _ _ _ _ h1 with ⟨e, es, he, hpe, rfl⟩ | ⟨e, es, he, hpe, rfl⟩
        · have h2 := dropWhile_head_not (fun c => c = '-')
            as e (by rw [he]; rfl)
          have h3 : decide (e = '-') = false := h2
          rw [hpe] at h3
          exact absurd h3 (by decide)
        · simpa using hpe
      simp [noDoubleHyphen, hd, ih]
  | case3 a as hpa ih =>
    rw [collapseRuns, if_neg hpa]
    cases hout : collapseRuns (fun c => c = '-') '-' as with
    | nil => rfl
    | cons d t =>
      rw [hout] at ih
      have ha : ¬ a = '-' := by simpa using hpa
      simp [noDoubleHyphen, ha, ih]

theorem toLower_not_upper (x : Char) :
    ¬(65 ≤ (Char.toLower x).toNat ∧ (Char.toLower x).toNat ≤ 90) := by
  simp only [Char.toLower]
  split
  · rename_i h
    have hv : Nat.isValidChar (x.toNat + 32) := Or.inl (by omega)
    have heq : (Char.ofNat (x.toNat + 32)).toNat = x.toNat + 32 := by
      rw [Char.ofNat, dif_pos hv]; rfl
    rw [heq]
    omega
  · rename_i h
    intro hc
    exact h ⟨hc.1, hc.2⟩

theorem isWordChar_lower (x : Char) (hw : isWordChar (Char.toLower x) = true) :
    isLowerWordChar (Char.toLower x) = true := by
  have hu := toLower_not_upper x
  unfold isWordChar at hw
  unfold isLowerWordChar
  simp only [Bool.or_eq_true, Bool.and_eq_true, decide_eq_true_eq] at hw ⊢
  rcases hw with (((h | h) | h) | h)
  · exact Or.inl (Or.inl h)
  · exact absurd ⟨h.1, h.2⟩ hu
  · exact Or.inl (Or.inr h)
  · exact Or.inr h

theorem mem_trimChars (l : List Char) (c : Char) (h : c ∈ trimChars l) : c ∈ l := by
  unfold trimChars at h
  have h1 := List.mem_reverse.mp h
  have h2 := List.mem_reverse.mp ((List.dropWhile_sublist isJsWS).subset h1)
  exact (List.dropWhile_sublist isJsWS).subset h2

theorem head?_of_prefix (l t : List Char) (c : Char)
    (h : l.head? = some c) : (l ++ t).head? = some c := by
  cases l with
  | nil => simp at h
  | cons a as => exact h

/-- C9: for every input string the slugify pipeline (lowercase, trim,
whitespace runs to hyphens, strip non-word characters except hyphens,
collapse hyphen runs, trim edge hyphens) yields a string containing only
lowercase word characters and interior single hyphens: every character is
a non-uppercase word character or a hyphen, no two hyphens are adjacent,
and the result neither starts nor ends with a hyphen. -/
theorem slugify_shape (s : String) :
    (slugify s).data.all (fun c => isLowerWordChar c || c = '-') = true ∧
    noDoubleHyphen (slugify s).data = true ∧
    (slugify s).data.head? ≠ some '-' ∧
    (slugify s).data.getLast? ≠ some '-' := by
  rw [slugify_data]
  set l3 := (collapseRuns isJsWS '-' (trimChars (s.data.map Char.toLower))).filter
      (fun c => isWordChar c || c = '-') with hl3
  set l4 := collapseRuns (fun c => c = '-') '-' l3 with hl4
  set l5 := l4.dropWhile (fun c => c = '-') with hl5
  have ndh4 : noDoubleHyphen l4 = true := noDoubleHyphen_collapse l3
  obtain ⟨t5, ht5⟩ := List.dropWhile_suffix (l := l4) (fun c => c = '-')
  have ndh5 : noDoubleHyphen l5 = true := ndh_suffix t5 l5 (by rw [ht5]; exact ndh4)
  obtain ⟨t6, ht6⟩ := List.dropWhile_suffix (l := l5.reverse) (fun c => c = '-')
  have hl5eq : (l5.reverse.dropWhile (fun c => c = '-')).reverse ++ t6.reverse = l5 := by
    calc (l5.reverse.dropWhile (fun c => c = '-')).reverse ++ t6.reverse
        = (t6 ++ l5.reverse.dropWhile (fun c => c = '-')).reverse := by
          rw [List.reverse_append]
      _ = l5.reverse.reverse := by rw [ht6]
      _ = l5 := List.reverse_reverse l5
  refine ⟨?_, ?_, ?_, ?_⟩
  · rw [List.all_eq_true]
    intro c hc
    have h5 : c ∈ l5 := by
      have h1 := List.mem_reverse.mp hc
      exact List.mem_reverse.mp ((List.dropWhile_sublist _).subset h1)
    have h4 : c ∈ l4 := (List.dropWhile_sublist _).subset h5
    rcases mem_collapseRuns _ _ _ _ h4 with rfl | h3
    · simp
    · have h23 := List.mem_filter.mp h3
      have h232 := h23.2
      rw [Bool.or_eq_true] at h232
      rcases h232 with hw | hh
      · rcases mem_collapseRuns _ _ _ _ h23.1 with rfl | h1m
        · simp
        · have h0 : c ∈ s.data.map Char.toLower := mem_trimChars _ _ h1m
          obtain ⟨x, -, rfl⟩ := List.mem_map.mp h0
          simp [isWordChar_lower x hw]
      · simp [hh]
  · exact ndh_append_left _ t6.reverse (by rw [hl5eq]; exact ndh5)
  · intro hctr
    have h5h : l5.head? = some '-' := by
      rw [← hl5eq]
      exact head?_of_prefix _ _ _ hctr
    have h2 := dropWhile_head_not (fun c => c = '-') l4 '-' h5h
    simp at h2
  · intro hctr
    rw [List.getLast?_reverse] at hctr
    have h2 := dropWhile_head_not (fun c => c = '-') l5.reverse '-' hctr
    simp at h2

/-- C9 witness: the shape guarantees instantiated at a concrete input. -/
theorem slugify_shape_witness :
    (slugify "  Hello   World!  ").data.all (fun c => isLowerWordChar c || c = '-') = true ∧
    noDoubleHyphen (slugify "  Hello   World!  ").data = true ∧
    (slugify "  Hello   World!  ").data.head? ≠ some '-' ∧
    (slugify "  Hello   World!  ").data.getLast? ≠ some '-' :=
  slugify_shape "  Hello   World!  "
